import Mathlib

set_option autoImplicit false

/-!
Verification of the device-list reconciliation logic of
`controllers/mover/syncthing/syncthing.go` (VolSync).

The Go source is shallowly embedded: Go slices become `List`, Go maps
`map[string]v1alpha1.SyncthingPeer` become association lists inserted in
iteration order (only key membership is ever observed, which is
order-independent), a possible runtime panic (nil dereference, index out
of range, negative `make` length) is modelled by an `Option` result with
`none` for the panic, and a Go `error` return becomes an `Option String`
or `Except String` value.
-/

namespace VolSync

namespace protocol

/-- A Syncthing device identifier, modelled by its canonical string
rendering (`protocol.DeviceID.GoString()`).  The zero identifier renders
as the empty string, which is how the Go code tests for "no IntroducedBy". -/
structure DeviceID where
  goString : String
deriving DecidableEq

end protocol

/-- `v1alpha1.SyncthingPeer`: a desired peer from the custom resource.
Modelled from the spec: the api type itself is outside this excerpt; the
fields are those the excerpt reads: `{id: string, address: string,
introducer: bool}`. -/
structure SyncthingPeer where
  ID : String
  Address : String
  Introducer : Bool
deriving DecidableEq

namespace config

/-- `config.DeviceConfiguration`: a device entry of the agent's live
configuration, restricted to the fields the excerpt reads. -/
structure DeviceConfiguration where
  DeviceID : protocol.DeviceID
  Addresses : List String
  IntroducedBy : protocol.DeviceID
  Introducer : Bool
deriving DecidableEq

/-- `config.Configuration`, restricted to the `Devices` field. -/
structure Configuration where
  Devices : List DeviceConfiguration
deriving DecidableEq

end config

/-- Modelled from the spec: the agent handle `api.Syncthing` (package
`api` is outside this excerpt).  It exposes its own identifier
(`MyID()`), its live configuration, and a `ShareFoldersWithDevices`
mutator; the latter is modelled by recording each instruction issued in
`shareCalls`, since its effect lives in the external agent. -/
structure Syncthing where
  Configuration : config.Configuration
  MyID : String
  shareCalls : List (List config.DeviceConfiguration)
deriving DecidableEq

/-- The device constructed for a desired peer: identifier, one-element
address list, empty IntroducedBy (Go zero value), copied Introducer flag. -/
def mkPeerDevice (id : protocol.DeviceID) (p : SyncthingPeer) : config.DeviceConfiguration :=
  { DeviceID := id, Addresses := [p.Address], IntroducedBy := ⟨""⟩,
    Introducer := p.Introducer }

/-- The carry-forward condition of `updateSyncthingDevices`: keep a
device when it is self or has a non-empty IntroducedBy. -/
def keepDevice (myID : String) (d : config.DeviceConfiguration) : Bool :=
  d.DeviceID.goString == myID || d.IntroducedBy.goString != ""

/-- The second loop of `updateSyncthingDevices`: one constructed device
per desired peer, aborting with the first identifier-parse error.  The
parser `protocol.DeviceIDFromString` lives in the external syncthing
library, so it is an uninterpreted parameter `parse`. -/
def buildPeerDevices (parse : String → Except String protocol.DeviceID) :
    List SyncthingPeer → Except String (List config.DeviceConfiguration)
  | [] => .ok []
  | p :: rest => do
    let id ← parse p.ID
    let ds ← buildPeerDevices parse rest
    pure (mkPeerDevice id p :: ds)

/-- `updateSyncthingDevices`.  The Go function mutates `*api.Syncthing`
in place and returns an `error`; here it returns the post-state handle
paired with the error.  A nil handle is refused up front; a parse error
aborts before any mutation (the partially built local list is simply
discarded); on success the device list is swapped wholesale and the
folder-sharing instruction is issued. -/
def updateSyncthingDevices (parse : String → Except String protocol.DeviceID)
    (peerList : List SyncthingPeer) :
    Option Syncthing → Option Syncthing × Option String
  | none => (none, some "syncthing cannot be nil")
  | some syncthing =>
    match buildPeerDevices parse peerList with
    | .error e => (some syncthing, some e)
    | .ok built =>
      let newDevices := syncthing.Configuration.Devices.filter
        (keepDevice syncthing.MyID) ++ built
      (some { syncthing with
                Configuration := { Devices := newDevices },
                shareCalls := syncthing.shareCalls ++ [newDevices] },
       none)

/-- The Go map `map[string]v1alpha1.SyncthingPeer`, as an association
list in insertion order.  Only key membership is ever observed. -/
abbrev PeerMap := List (String × SyncthingPeer)

/-- Go map assignment `m[k] = v`: overwrite the existing entry or append. -/
def mapInsert (m : PeerMap) (k : String) (v : SyncthingPeer) : PeerMap :=
  if m.any (fun e => e.1 == k) then
    m.map (fun e => if e.1 == k then (k, v) else e)
  else m ++ [(k, v)]

/-- Go map lookup `_, ok := m[k]`. -/
def containsKey (m : PeerMap) (k : String) : Bool :=
  m.any (fun e => e.1 == k)

/-- The self entry both maps are seeded with: `{ID: myID, Address: ""}`
(Go zero value for the Introducer field). -/
def selfPeer (myID : String) : SyncthingPeer :=
  { ID := myID, Address := "", Introducer := false }

/-- The map literal seeding both maps of `syncthingNeedsReconfigure`. -/
def seedMap (myID : String) : PeerMap :=
  [(myID, selfPeer myID)]

/-- First loop of `syncthingNeedsReconfigure`: insert every desired
peer by identifier, skipping self. -/
def insertNodes (myID : String) (m : PeerMap) : List SyncthingPeer → PeerMap
  | [] => m
  | d :: rest =>
    if d.ID == myID then insertNodes myID m rest
    else insertNodes myID (mapInsert m d.ID d) rest

/-- Second loop of `syncthingNeedsReconfigure`: insert every current
device, skipping self and introduced devices; the unguarded
`device.Addresses[0]` access panics (`none`) on an empty address list. -/
def insertCurrentDevices (myID : String) (m : PeerMap) :
    List config.DeviceConfiguration → Option PeerMap
  | [] => some m
  | d :: rest =>
    if d.DeviceID.goString == myID || d.IntroducedBy.goString != "" then
      insertCurrentDevices myID m rest
    else
      match d.Addresses with
      | [] => none
      | a :: _ =>
        insertCurrentDevices myID
          (mapInsert m d.DeviceID.goString ⟨d.DeviceID.goString, a, false⟩) rest

/-- The `newDevices` map of `syncthingNeedsReconfigure`. -/
def desiredMap (myID : String) (nodeList : List SyncthingPeer) : PeerMap :=
  insertNodes myID (seedMap myID) nodeList

/-- The `currentDevs` map of `syncthingNeedsReconfigure` (`none` on panic). -/
def currentMap (myID : String) (devices : List config.DeviceConfiguration) :
    Option PeerMap :=
  insertCurrentDevices myID (seedMap myID) devices

/-- `syncthingNeedsReconfigure`.  The Go function dereferences the
handle without a nil check, so a `none` handle is a panic (`none`
result); so is an empty address list on a compared device.  The final
two range-loops return `true` as soon as a key of one map is missing
from the other, which is the order-independent `any` below. -/
def syncthingNeedsReconfigure (nodeList : List SyncthingPeer) :
    Option Syncthing → Option Bool
  | none => none
  | some syncthing =>
    let newDevices := desiredMap syncthing.MyID nodeList
    match currentMap syncthing.MyID syncthing.Configuration.Devices with
    | none => none
    | some currentDevs =>
      some (newDevices.any (fun e => !(containsKey currentDevs e.2.ID)) ||
            currentDevs.any (fun e => !(containsKey newDevices e.2.ID)))

/-- Go `make([]byte, length)`: panics (`none`) on a negative length,
otherwise a zero-filled slice.  Bytes are `Nat` values below 256. -/
def goMake (length : Int) : Option (List Nat) :=
  if length < 0 then none else some (List.replicate length.toNat 0)

/-- `GenerateRandomBytes`.  The OS entropy source `crypto/rand.Read` is
an uninterpreted parameter `randRead` mapping a requested length to the
bytes delivered or to an error; `none` models the allocation panic. -/
def GenerateRandomBytes (randRead : Nat → Except String (List Nat))
    (length : Int) : Option (Except String (List Nat)) :=
  match goMake length with
  | none => none
  | some b =>
    match randRead b.length with
    | .error e => some (.error e)
    | .ok bytes => some (.ok bytes)

/-- `GenerateRandomString`: map each byte into `[33, 126]` via
`b % 94 + 33` (the byte arithmetic `126 - 33 + 1 = 94` never wraps) and
view the resulting ASCII bytes as a string. -/
def GenerateRandomString (randRead : Nat → Except String (List Nat))
    (length : Int) : Option (Except String String) :=
  match GenerateRandomBytes randRead length with
  | none => none
  | some (.error e) => some (.error e)
  | some (.ok b) =>
    let lowerBound : Nat := 33
    let upperBound : Nat := 126
    let acceptableRange : Nat := upperBound - lowerBound + 1
    let acceptableBytes := b.map (fun x => x % acceptableRange + lowerBound)
    some (.ok (String.mk (acceptableBytes.map (fun x => Char.ofNat x))))

/-- Go regexp `\w` (RE2 Perl classes are ASCII): `[0-9A-Za-z_]`. -/
def isWordChar (c : Char) : Bool :=
  c.isAlphanum || c == '_'

/-- Go regexp `\s`: `[\t\n\f\r ]`. -/
def isSpaceChar (c : Char) : Bool :=
  c == ' ' || c == '\t' || c == '\n' || c == '\x0c' || c == '\r'

/-- `MatchString` of the anchored regexp `^(\w+:\/\/)[^\s]+$`, compiled
by hand: a maximal non-empty `\w+` run (maximal munch is forced, since
the following character must be `:`, which is not a word character),
the literal `://`, then a non-empty whitespace-free remainder reaching
the end of the string. -/
def uriPatternMatch (s : String) : Bool :=
  let w := s.data.takeWhile isWordChar
  match s.data.dropWhile isWordChar with
  | ':' :: '/' :: '/' :: rest =>
    !w.isEmpty && !rest.isEmpty && rest.all (fun c => !isSpaceChar c)
  | _ => false

/-- `asTCPAddress`. -/
def asTCPAddress (address : String) : String :=
  if uriPatternMatch address then address else "tcp://" ++ address

/-- A sample identifier parser used to instantiate theorems on concrete
inputs: rejects the empty string, accepts anything else verbatim. -/
def sampleParse (s : String) : Except String protocol.DeviceID :=
  if s = "" then .error "device ID invalid: incorrect length" else .ok ⟨s⟩

/-- A sample entropy source delivering the bytes `5, 45, 85, ...`. -/
def sampleRand (n : Nat) : Except String (List Nat) :=
  .ok ((List.range n).map (fun i => (5 + 40 * i) % 256))

/-! ### Helper lemmas -/

theorem charOfNat_toNat_small (v : Nat) (h : v < 128) :
    (Char.ofNat v).toNat = v := by
  have hv : v.isValidChar := Or.inl (by omega)
  simp [Char.ofNat, Char.toNat, hv, Char.ofNatAux, UInt32.ofNat', UInt32.toNat]

theorem buildPeerDevices_error
    (parse : String → Except String protocol.DeviceID)
    (peerList : List SyncthingPeer)
    (h : ∃ p ∈ peerList, ∃ e, parse p.ID = Except.error e) :
    ∃ e, buildPeerDevices parse peerList = Except.error e := by
  induction peerList with
  | nil => simp at h
  | cons p rest ih =>
    rcases h with ⟨q, hq, e, he⟩
    rcases List.mem_cons.mp hq with rfl | hmem
    · exact ⟨e, by simp only [buildPeerDevices, he]; rfl⟩
    · cases hp : parse p.ID with
      | error e2 => exact ⟨e2, by simp only [buildPeerDevices, hp]; rfl⟩
      | ok id =>
        rcases ih ⟨q, hmem, e, he⟩ with ⟨e3, h3⟩
        exact ⟨e3, by simp only [buildPeerDevices, hp, h3]; rfl⟩

theorem buildPeerDevices_ok
    (parse : String → Except String protocol.DeviceID)
    (pid : SyncthingPeer → protocol.DeviceID)
    (peerList : List SyncthingPeer)
    (h : ∀ p ∈ peerList, parse p.ID = Except.ok (pid p)) :
    buildPeerDevices parse peerList =
      Except.ok (peerList.map (fun p => mkPeerDevice (pid p) p)) := by
  induction peerList with
  | nil => simp [buildPeerDevices]
  | cons p rest ih =>
    have hp := h p (by simp)
    have hrest := ih (fun q hq => h q (by simp [hq]))
    simp only [buildPeerDevices, hp, hrest]; rfl

/-! ### C9, C10, C7, C3 -/

/-- C9: the nil-handle guard of the two reconciliation operations is
asymmetric: `updateSyncthingDevices` on a nil handle returns the error
"syncthing cannot be nil" having done nothing else, whereas
`syncthingNeedsReconfigure` performs no nil check and its result on a nil
handle is undefined (a nil-dereference panic, modelled as `none`). -/
theorem nil_guard_asymmetry :
    (∀ (parse : String → Except String protocol.DeviceID)
       (peerList : List SyncthingPeer),
      updateSyncthingDevices parse peerList none =
        (none, some "syncthing cannot be nil")) ∧
    (∀ nodeList : List SyncthingPeer,
      syncthingNeedsReconfigure nodeList none = none) :=
  ⟨fun _ _ => rfl, fun _ => rfl⟩

/-- C10: `GenerateRandomBytes` and `GenerateRandomString` are defined
only for non-negative lengths: a negative length panics in the
allocation (`none`), while for a non-negative length the allocation
succeeds and, when the entropy source delivers, `GenerateRandomBytes`
returns exactly `length` bytes. -/
theorem generateRandom_nonneg
    (randRead : Nat → Except String (List Nat))
    (hwf : ∀ k bs, randRead k = Except.ok bs → bs.length = k) (n : Int) :
    (n < 0 → GenerateRandomBytes randRead n = none ∧
      GenerateRandomString randRead n = none) ∧
    (0 ≤ n → ∀ bs, randRead n.toNat = Except.ok bs →
      GenerateRandomBytes randRead n = some (Except.ok bs) ∧
      bs.length = n.toNat) := by
  constructor
  · intro hn
    have h1 : GenerateRandomBytes randRead n = none := by
      simp [GenerateRandomBytes, goMake, hn]
    exact ⟨h1, by simp [GenerateRandomString, h1]⟩
  · intro hn bs hok
    refine ⟨?_, hwf _ _ hok⟩
    have hng : ¬ n < 0 := by omega
    simp [GenerateRandomBytes, goMake, hng, hok]

/-- C7: whenever the entropy source succeeds for a (non-negative)
length `n`, `GenerateRandomString` returns a string of exactly `n`
characters, the `i`-th character being byte `i` mapped through
`b % 94 + 33`, so every character code lies in `[33, 126]`. -/
theorem GenerateRandomString_length_range
    (randRead : Nat → Except String (List Nat)) (n : Nat) (bs : List Nat)
    (hok : randRead n = Except.ok bs) (hlen : bs.length = n) :
    GenerateRandomString randRead (n : Int) =
      some (Except.ok (String.mk (bs.map (fun x => Char.ofNat (x % 94 + 33))))) ∧
    (String.mk (bs.map (fun x => Char.ofNat (x % 94 + 33)))).length = n ∧
    ∀ c ∈ bs.map (fun x => Char.ofNat (x % 94 + 33)),
      33 ≤ c.toNat ∧ c.toNat ≤ 126 := by
  have hbytes : GenerateRandomBytes randRead (n : Int) = some (Except.ok bs) := by
    have hng : ¬ ((n : Int) < 0) := by simp
    simp [GenerateRandomBytes, goMake, hng, hok]
  refine ⟨?_, ?_, ?_⟩
  · simp [GenerateRandomString, hbytes, List.map_map]
    rfl
  · simp [String.length, hlen]
  · intro c hc
    rcases List.mem_map.mp hc with ⟨x, _, rfl⟩
    have h94 : x % 94 < 94 := Nat.mod_lt _ (by omega)
    have := charOfNat_toNat_small (x % 94 + 33) (by omega)
    omega

/-- C3: `updateSyncthingDevices` is all-or-nothing: if any desired
peer's identifier fails to parse, the call returns an error and the
agent is left exactly as it was (same device list, no folder-sharing
instruction recorded). -/
theorem updateSyncthingDevices_parse_error_no_mutation
    (parse : String → Except String protocol.DeviceID)
    (peerList : List SyncthingPeer) (st : Syncthing)
    (h : ∃ p ∈ peerList, ∃ e, parse p.ID = Except.error e) :
    ∃ e, updateSyncthingDevices parse peerList (some st) = (some st, some e) := by
  rcases buildPeerDevices_error parse peerList h with ⟨e, he⟩
  exact ⟨e, by simp [updateSyncthingDevices, he]⟩

theorem updateSyncthingDevices_parse_error_no_mutation_witness :
    ∃ e, updateSyncthingDevices sampleParse [⟨"", "addr", false⟩]
      (some ⟨⟨[]⟩, "SELF", []⟩) = (some ⟨⟨[]⟩, "SELF", []⟩, some e) :=
  updateSyncthingDevices_parse_error_no_mutation sampleParse _ _
    ⟨⟨"", "addr", false⟩, by simp, "device ID invalid: incorrect length", rfl⟩

theorem generateRandom_nonneg_witness :
    (GenerateRandomBytes sampleRand (-1) = none ∧
     GenerateRandomString sampleRand (-1) = none) ∧
    (GenerateRandomBytes sampleRand 2 = some (Except.ok [5, 45]) ∧
     ([5, 45] : List Nat).length = (2 : Int).toNat) := by
  have hwf : ∀ k bs, sampleRand k = Except.ok bs → bs.length = k := by
    intro k bs h
    simp only [sampleRand, Except.ok.injEq] at h
    subst h
    simp
  exact ⟨(generateRandom_nonneg sampleRand hwf (-1)).1 (by norm_num),
         (generateRandom_nonneg sampleRand hwf 2).2 (by norm_num) [5, 45] rfl⟩

theorem GenerateRandomString_length_range_witness :
    GenerateRandomString sampleRand ((3 : Nat) : Int) =
      some (Except.ok (String.mk (([5, 45, 85] : List Nat).map
        (fun x => Char.ofNat (x % 94 + 33))))) ∧
    (String.mk (([5, 45, 85] : List Nat).map
      (fun x => Char.ofNat (x % 94 + 33)))).length = 3 ∧
    ∀ c ∈ ([5, 45, 85] : List Nat).map (fun x => Char.ofNat (x % 94 + 33)),
      33 ≤ c.toNat ∧ c.toNat ≤ 126 :=
  GenerateRandomString_length_range sampleRand 3 [5, 45, 85] rfl rfl

/-! ### C2: shape of a successful update -/

/-- The identifier string of a device entry. -/
def deviceKey (d : config.DeviceConfiguration) : String :=
  d.DeviceID.goString

/-- The devices carried forward by `updateSyncthingDevices`: self plus
every device with non-empty IntroducedBy, in order. -/
def keptDevices (st : Syncthing) : List config.DeviceConfiguration :=
  st.Configuration.Devices.filter (keepDevice st.MyID)

/-- C2 fails as stated: with an agent whose device list is empty and a
desired peer list naming the identifier "A" twice, the update succeeds
but the resulting device list has duplicate identifiers and contains no
self device ("SELF").  The peer loop neither skips self nor dedupes. -/
theorem updateSyncthingDevices_duplicate_cex :
    updateSyncthingDevices sampleParse [⟨"A", "a1", false⟩, ⟨"A", "a2", true⟩]
        (some ⟨⟨[]⟩, "SELF", []⟩) =
      (some ⟨⟨[⟨⟨"A"⟩, ["a1"], ⟨""⟩, false⟩, ⟨⟨"A"⟩, ["a2"], ⟨""⟩, true⟩]⟩, "SELF",
        [[⟨⟨"A"⟩, ["a1"], ⟨""⟩, false⟩, ⟨⟨"A"⟩, ["a2"], ⟨""⟩, true⟩]]⟩, none) ∧
    ¬ ([⟨⟨"A"⟩, ["a1"], ⟨""⟩, false⟩,
        ⟨⟨"A"⟩, ["a2"], ⟨""⟩, true⟩].map deviceKey).Nodup ∧
    "SELF" ∉ [⟨⟨"A"⟩, ["a1"], ⟨""⟩, false⟩,
        ⟨⟨"A"⟩, ["a2"], ⟨""⟩, true⟩].map deviceKey :=
  ⟨by decide, by decide, by decide⟩

/-- C2 amended: after a successful `updateSyncthingDevices`, the device
list is exactly the carried-forward devices (self and devices with a
non-empty IntroducedBy, unchanged and in order) followed by one newly
constructed device per desired peer entry; its identifiers are free of
duplicates provided the parsed desired identifiers are pairwise
distinct and disjoint from the carried-forward identifiers. -/
theorem updateSyncthingDevices_result_shape
    (parse : String → Except String protocol.DeviceID)
    (pid : SyncthingPeer → protocol.DeviceID)
    (peerList : List SyncthingPeer) (st : Syncthing)
    (hparse : ∀ p ∈ peerList, parse p.ID = Except.ok (pid p)) :
    updateSyncthingDevices parse peerList (some st) =
      (some { Configuration := ⟨keptDevices st ++
                peerList.map (fun p => mkPeerDevice (pid p) p)⟩,
              MyID := st.MyID,
              shareCalls := st.shareCalls ++ [keptDevices st ++
                peerList.map (fun p => mkPeerDevice (pid p) p)] }, none) ∧
    (((keptDevices st).map deviceKey).Nodup →
      (peerList.map (fun p => (pid p).goString)).Nodup →
      (∀ k ∈ (keptDevices st).map deviceKey,
        k ∉ peerList.map (fun p => (pid p).goString)) →
      ((keptDevices st ++ peerList.map (fun p => mkPeerDevice (pid p) p)).map
        deviceKey).Nodup) := by
  constructor
  · have hb := buildPeerDevices_ok parse pid peerList hparse
    simp [updateSyncthingDevices, hb, keptDevices]
  · intro h1 h2 h3
    rw [List.map_append, List.nodup_append]
    have hmm : (peerList.map (fun p => mkPeerDevice (pid p) p)).map deviceKey =
        peerList.map (fun p => (pid p).goString) := by
      simp [List.map_map, deviceKey, mkPeerDevice]
    rw [hmm]
    exact ⟨h1, h2, fun a ha hb => (h3 a ha) hb⟩

/-- A sample self device of the agent `wSt`. -/
def selfDev : config.DeviceConfiguration := ⟨⟨"SELF"⟩, ["s"], ⟨""⟩, false⟩

/-- A sample introduced device (IntroducedBy = "Q") of the agent `wSt`. -/
def introDev : config.DeviceConfiguration := ⟨⟨"B"⟩, ["b"], ⟨"Q"⟩, false⟩

/-- A sample agent handle holding its self device and one introduced
device. -/
def wSt : Syncthing := ⟨⟨[selfDev, introDev]⟩, "SELF", []⟩

theorem updateSyncthingDevices_result_shape_witness :
    updateSyncthingDevices sampleParse [⟨"A", "addr", false⟩] (some wSt) =
      (some ⟨⟨[selfDev, introDev, ⟨⟨"A"⟩, ["addr"], ⟨""⟩, false⟩]⟩, "SELF",
        [[selfDev, introDev, ⟨⟨"A"⟩, ["addr"], ⟨""⟩, false⟩]]⟩, none) ∧
    ([selfDev, introDev, ⟨⟨"A"⟩, ["addr"], ⟨""⟩, false⟩].map deviceKey).Nodup := by
  have h := updateSyncthingDevices_result_shape sampleParse (fun p => ⟨p.ID⟩)
    [⟨"A", "addr", false⟩] wSt (by intro p hp; simp at hp; subst hp; rfl)
  exact ⟨h.1.trans (by decide), by decide⟩

/-! ### C4: introduced devices are invisible to the comparator -/

theorem insertCurrentDevices_skip (myID : String) (m : PeerMap)
    (pre post : List config.DeviceConfiguration)
    (d : config.DeviceConfiguration) (hd : d.IntroducedBy.goString ≠ "") :
    insertCurrentDevices myID m (pre ++ d :: post) =
      insertCurrentDevices myID m (pre ++ post) := by
  induction pre generalizing m with
  | nil =>
    have hcond : (d.DeviceID.goString == myID || d.IntroducedBy.goString != "") =
        true := by
      simp [hd]
    simp only [List.nil_append, insertCurrentDevices, hcond, if_true]
  | cons q pre ih =>
    simp only [List.cons_append, insertCurrentDevices]
    by_cases hq : (q.DeviceID.goString == myID || q.IntroducedBy.goString != "") = true
    · rw [if_pos hq, if_pos hq]
      exact ih m
    · rw [if_neg hq, if_neg hq]
      rcases hA : q.Addresses with _ | ⟨a, as⟩
      · simp only [hA]
      · simp only [hA]
        exact ih _

/-- C4: devices with a non-empty IntroducedBy never affect
`syncthingNeedsReconfigure`: inserting (equivalently, removing) such a
device at any position of the agent's current device list leaves the
comparator's result unchanged, for every desired peer list and agent
state. -/
theorem syncthingNeedsReconfigure_ignores_introduced
    (nodeList : List SyncthingPeer) (myID : String)
    (sc : List (List config.DeviceConfiguration))
    (pre post : List config.DeviceConfiguration)
    (d : config.DeviceConfiguration) (hd : d.IntroducedBy.goString ≠ "") :
    syncthingNeedsReconfigure nodeList (some ⟨⟨pre ++ d :: post⟩, myID, sc⟩) =
      syncthingNeedsReconfigure nodeList (some ⟨⟨pre ++ post⟩, myID, sc⟩) := by
  simp only [syncthingNeedsReconfigure, currentMap]
  rw [insertCurrentDevices_skip myID (seedMap myID) pre post d hd]

theorem syncthingNeedsReconfigure_ignores_introduced_witness :
    syncthingNeedsReconfigure [] (some ⟨⟨[introDev]⟩, "SELF", []⟩) =
      syncthingNeedsReconfigure [] (some ⟨⟨[]⟩, "SELF", []⟩) :=
  syncthingNeedsReconfigure_ignores_introduced [] "SELF" [] [] [] introDev
    (by decide)

/-! ### C8: totality of the comparator on valid inputs -/

theorem insertCurrentDevices_total (myID : String)
    (l : List config.DeviceConfiguration) (m : PeerMap)
    (h : ∀ d ∈ l, d.DeviceID.goString ≠ myID → d.IntroducedBy.goString = "" →
      d.Addresses ≠ []) :
    ∃ m2, insertCurrentDevices myID m l = some m2 := by
  induction l generalizing m with
  | nil => exact ⟨m, rfl⟩
  | cons d rest ih =>
    by_cases hc : (d.DeviceID.goString == myID || d.IntroducedBy.goString != "") = true
    · rcases ih m (fun q hq h1 h2 => h q (by simp [hq]) h1 h2) with ⟨m2, hm2⟩
      exact ⟨m2, by simp only [insertCurrentDevices, if_pos hc]; exact hm2⟩
    · have hc2 : ¬ (d.DeviceID.goString = myID ∨ d.IntroducedBy.goString ≠ "") := by
        simpa using hc
      push_neg at hc2
      have hne := h d (by simp) hc2.1 hc2.2
      rcases hA : d.Addresses with _ | ⟨a, as⟩
      · exact absurd hA hne
      · rcases ih (mapInsert m d.DeviceID.goString ⟨d.DeviceID.goString, a, false⟩)
          (fun q hq h1 h2 => h q (by simp [hq]) h1 h2) with ⟨m2, hm2⟩
        refine ⟨m2, ?_⟩
        simp only [insertCurrentDevices, if_neg hc, hA]
        exact hm2

/-- C8: `syncthingNeedsReconfigure` is total (returns a boolean, never
panics) on valid inputs: a non-nil handle every one of whose non-self,
non-introduced devices has a non-empty address list; the unguarded
first-address access is then always in bounds. -/
theorem syncthingNeedsReconfigure_total
    (nodeList : List SyncthingPeer) (st : Syncthing)
    (h : ∀ d ∈ st.Configuration.Devices, d.DeviceID.goString ≠ st.MyID →
      d.IntroducedBy.goString = "" → d.Addresses ≠ []) :
    ∃ b, syncthingNeedsReconfigure nodeList (some st) = some b := by
  rcases insertCurrentDevices_total st.MyID st.Configuration.Devices
    (seedMap st.MyID) h with ⟨m2, hm2⟩
  refine ⟨(desiredMap st.MyID nodeList).any (fun e => !(containsKey m2 e.2.ID)) ||
    m2.any (fun e => !(containsKey (desiredMap st.MyID nodeList) e.2.ID)), ?_⟩
  simp only [syncthingNeedsReconfigure, currentMap, hm2]

theorem syncthingNeedsReconfigure_total_witness :
    ∃ b, syncthingNeedsReconfigure [⟨"A", "addr", false⟩] (some wSt) = some b :=
  syncthingNeedsReconfigure_total [⟨"A", "addr", false⟩] wSt (by decide)

/-! ### C1: the comparator decides key-set difference -/

/-- The key list of a peer map. -/
def mapKeys (m : PeerMap) : List String :=
  m.map (fun e => e.1)

/-- The key set of a peer map. -/
def keysFinset (m : PeerMap) : Finset String :=
  (mapKeys m).toFinset

/-- Every entry of the map stores a peer whose identifier equals its
key; both maps of the comparator only ever insert such entries. -/
def GoodMap (m : PeerMap) : Prop :=
  ∀ e ∈ m, e.1 = e.2.ID

theorem containsKey_iff (m : PeerMap) (k : String) :
    containsKey m k = true ↔ k ∈ mapKeys m := by
  simp only [containsKey, List.any_eq_true, beq_iff_eq, mapKeys, List.mem_map]

theorem mem_mapKeys_mapInsert (m : PeerMap) (k k2 : String) (v : SyncthingPeer) :
    k2 ∈ mapKeys (mapInsert m k v) ↔ k2 ∈ mapKeys m ∨ k2 = k := by
  unfold mapInsert
  by_cases hex : m.any (fun e => e.1 == k) = true
  · rw [if_pos hex]
    have hx : ∃ e0 ∈ m, e0.1 = k := by
      simpa only [List.any_eq_true, beq_iff_eq] using hex
    simp only [mapKeys, List.map_map, List.mem_map, Function.comp]
    constructor
    · rintro ⟨e, he, hfe⟩
      by_cases h : (e.1 == k) = true
      · rw [if_pos h] at hfe
        exact Or.inr hfe.symm
      · rw [if_neg h] at hfe
        exact Or.inl ⟨e, he, hfe⟩
    · rintro (⟨e, he, hfe⟩ | rfl)
      · refine ⟨e, he, ?_⟩
        by_cases h : (e.1 == k) = true
        · rw [if_pos h]
          exact (eq_of_beq h).symm.trans hfe
        · rw [if_neg h]
          exact hfe
      · rcases hx with ⟨e0, he0, h0⟩
        refine ⟨e0, he0, ?_⟩
        rw [if_pos (beq_iff_eq.mpr h0)]
  · rw [if_neg hex]
    simp only [mapKeys, List.map_append, List.mem_append, List.map_cons,
      List.map_nil, List.mem_singleton]

theorem goodMap_mapInsert (m : PeerMap) (k : String) (v : SyncthingPeer)
    (hm : GoodMap m) (hv : k = v.ID) : GoodMap (mapInsert m k v) := by
  unfold mapInsert
  by_cases hex : m.any (fun e => e.1 == k) = true
  · rw [if_pos hex]
    intro e he
    rcases List.mem_map.mp he with ⟨e0, he0, rfl⟩
    by_cases h : (e0.1 == k) = true
    · simp only [if_pos h]
      exact hv
    · simp only [if_neg h]
      exact hm e0 he0
  · rw [if_neg hex]
    intro e he
    rcases List.mem_append.mp he with h1 | h1
    · exact hm e h1
    · simp only [List.mem_singleton] at h1
      subst h1
      exact hv

theorem goodMap_seedMap (myID : String) : GoodMap (seedMap myID) := by
  intro e he
  simp only [seedMap, List.mem_singleton] at he
  subst he
  rfl

theorem goodMap_insertNodes (myID : String) (l : List SyncthingPeer)
    (m : PeerMap) (hm : GoodMap m) : GoodMap (insertNodes myID m l) := by
  induction l generalizing m with
  | nil => exact hm
  | cons d rest ih =>
    by_cases h : (d.ID == myID) = true
    · simp only [insertNodes, if_pos h]
      exact ih m hm
    · simp only [insertNodes, if_neg h]
      exact ih _ (goodMap_mapInsert m d.ID d hm rfl)

theorem goodMap_insertCurrentDevices (myID : String)
    (l : List config.DeviceConfiguration) (m m2 : PeerMap) (hm : GoodMap m)
    (h : insertCurrentDevices myID m l = some m2) : GoodMap m2 := by
  induction l generalizing m with
  | nil =>
    simp only [insertCurrentDevices, Option.some.injEq] at h
    subst h
    exact hm
  | cons d rest ih =>
    by_cases hc : (d.DeviceID.goString == myID || d.IntroducedBy.goString != "") = true
    · simp only [insertCurrentDevices, if_pos hc] at h
      exact ih m hm h
    · rcases hA : d.Addresses with _ | ⟨a, as⟩
      · exfalso
        have hnone : insertCurrentDevices myID m (d :: rest) = none := by
          simp only [insertCurrentDevices, if_neg hc, hA]
        rw [h] at hnone
        cases hnone
      · have hstep : insertCurrentDevices myID m (d :: rest) =
            insertCurrentDevices myID
              (mapInsert m d.DeviceID.goString ⟨d.DeviceID.goString, a, false⟩) rest := by
          simp only [insertCurrentDevices, if_neg hc, hA]
        rw [hstep] at h
        exact ih _ (goodMap_mapInsert m d.DeviceID.goString _ hm rfl) h

theorem mem_mapKeys_insertNodes (myID : String) (l : List SyncthingPeer)
    (m : PeerMap) (k : String) :
    k ∈ mapKeys (insertNodes myID m l) ↔
      k ∈ mapKeys m ∨ ∃ p ∈ l, p.ID = k ∧ k ≠ myID := by
  induction l generalizing m with
  | nil => simp [insertNodes]
  | cons d rest ih =>
    by_cases h : (d.ID == myID) = true
    · have hd : d.ID = myID := by simpa using h
      simp only [insertNodes, if_pos h, ih]
      constructor
      · rintro (hk | ⟨p, hp, h1, h2⟩)
        · exact Or.inl hk
        · exact Or.inr ⟨p, List.mem_cons_of_mem d hp, h1, h2⟩
      · rintro (hk | ⟨p, hp, h1, h2⟩)
        · exact Or.inl hk
        · rcases List.mem_cons.mp hp with rfl | hp2
          · exact absurd (h1 ▸ hd) h2
          · exact Or.inr ⟨p, hp2, h1, h2⟩
    · have hd : d.ID ≠ myID := by simpa using h
      simp only [insertNodes, if_neg h, ih, mem_mapKeys_mapInsert]
      constructor
      · rintro ((hk | rfl) | ⟨p, hp, h1, h2⟩)
        · exact Or.inl hk
        · exact Or.inr ⟨d, List.mem_cons_self d rest, rfl, hd⟩
        · exact Or.inr ⟨p, List.mem_cons_of_mem d hp, h1, h2⟩
      · rintro (hk | ⟨p, hp, h1, h2⟩)
        · exact Or.inl (Or.inl hk)
        · rcases List.mem_cons.mp hp with rfl | hp2
          · exact Or.inl (Or.inr h1.symm)
          · exact Or.inr ⟨p, hp2, h1, h2⟩

theorem mem_mapKeys_insertCurrentDevices (myID : String)
    (l : List config.DeviceConfiguration) (m m2 : PeerMap) (k : String)
    (h : insertCurrentDevices myID m l = some m2) :
    k ∈ mapKeys m2 ↔ k ∈ mapKeys m ∨
      ∃ d ∈ l, d.DeviceID.goString = k ∧ d.DeviceID.goString ≠ myID ∧
        d.IntroducedBy.goString = "" := by
  induction l generalizing m with
  | nil =>
    simp only [insertCurrentDevices, Option.some.injEq] at h
    subst h
    simp
  | cons d rest ih =>
    by_cases hc : (d.DeviceID.goString == myID || d.IntroducedBy.goString != "") = true
    · simp only [insertCurrentDevices, if_pos hc] at h
      have hcc : d.DeviceID.goString = myID ∨ d.IntroducedBy.goString ≠ "" := by
        simpa using hc
      rw [ih m h]
      constructor
      · rintro (hk | ⟨q, hq, h1, h2, h3⟩)
        · exact Or.inl hk
        · exact Or.inr ⟨q, List.mem_cons_of_mem d hq, h1, h2, h3⟩
      · rintro (hk | ⟨q, hq, h1, h2, h3⟩)
        · exact Or.inl hk
        · rcases List.mem_cons.mp hq with rfl | hq2
          · rcases hcc with hcc | hcc
            · exact absurd hcc h2
            · exact absurd h3 hcc
          · exact Or.inr ⟨q, hq2, h1, h2, h3⟩
    · have hcc : d.DeviceID.goString ≠ myID ∧ d.IntroducedBy.goString = "" := by
        have h2 : ¬ (d.DeviceID.goString = myID ∨ d.IntroducedBy.goString ≠ "") := by
          simpa using hc
        push_neg at h2
        exact h2
      rcases hA : d.Addresses with _ | ⟨a, as⟩
      · exfalso
        have hnone : insertCurrentDevices myID m (d :: rest) = none := by
          simp only [insertCurrentDevices, if_neg hc, hA]
        rw [h] at hnone
        cases hnone
      · have hstep : insertCurrentDevices myID m (d :: rest) =
            insertCurrentDevices myID
              (mapInsert m d.DeviceID.goString ⟨d.DeviceID.goString, a, false⟩) rest := by
          simp only [insertCurrentDevices, if_neg hc, hA]
        rw [hstep] at h
        rw [ih _ h, mem_mapKeys_mapInsert]
        constructor
        · rintro ((hk | rfl) | ⟨q, hq, h1, h2, h3⟩)
          · exact Or.inl hk
          · exact Or.inr ⟨d, List.mem_cons_self d rest, rfl, hcc.1, hcc.2⟩
          · exact Or.inr ⟨q, List.mem_cons_of_mem d hq, h1, h2, h3⟩
        · rintro (hk | ⟨q, hq, h1, h2, h3⟩)
          · exact Or.inl (Or.inl hk)
          · rcases List.mem_cons.mp hq with rfl | hq2
            · exact Or.inl (Or.inr h1.symm)
            · exact Or.inr ⟨q, hq2, h1, h2, h3⟩

theorem anyMissing_iff (A B : PeerMap) (hA : GoodMap A) :
    (A.any (fun e => !(containsKey B e.2.ID)) = true) ↔
      ∃ k ∈ mapKeys A, k ∉ mapKeys B := by
  simp only [List.any_eq_true, Bool.not_eq_true']
  constructor
  · rintro ⟨e, he, hf⟩
    refine ⟨e.1, List.mem_map.mpr ⟨e, he, rfl⟩, ?_⟩
    intro hmem
    rw [hA e he] at hmem
    rw [(containsKey_iff B e.2.ID).mpr hmem] at hf
    cases hf
  · rintro ⟨k, hk, hnb⟩
    rcases List.mem_map.mp hk with ⟨e, he, rfl⟩
    refine ⟨e, he, ?_⟩
    cases hcb : containsKey B e.2.ID with
    | false => rfl
    | true =>
      exfalso
      apply hnb
      rw [hA e he]
      exact (containsKey_iff B e.2.ID).mp hcb

theorem mem_filteredKeys (devices : List config.DeviceConfiguration)
    (myID k : String) :
    (k ∈ (devices.filter (fun d =>
        !(d.DeviceID.goString == myID || d.IntroducedBy.goString != ""))).map
      (fun d => d.DeviceID.goString)) ↔
    ∃ d ∈ devices, d.DeviceID.goString = k ∧ d.DeviceID.goString ≠ myID ∧
      d.IntroducedBy.goString = "" := by
  simp only [List.mem_map, List.mem_filter, Bool.not_eq_true', Bool.or_eq_false_iff,
    beq_eq_false_iff_ne, bne_eq_false_iff_eq]
  constructor
  · rintro ⟨d, ⟨hd, hne, heq⟩, rfl⟩
    exact ⟨d, hd, rfl, hne, heq⟩
  · rintro ⟨d, hd, rfl, hne, heq⟩
    exact ⟨d, ⟨hd, hne, heq⟩, rfl⟩

theorem mem_mapKeys_desiredMap (myID : String) (nodeList : List SyncthingPeer)
    (k : String) :
    k ∈ mapKeys (desiredMap myID nodeList) ↔
      k = myID ∨ ∃ p ∈ nodeList, p.ID = k ∧ k ≠ myID := by
  rw [desiredMap, mem_mapKeys_insertNodes]
  simp [seedMap, mapKeys]

/-- C1: for every desired peer list and (non-panicking) agent handle,
`syncthingNeedsReconfigure` returns `true` iff the key sets of the two
normalized maps (desired seeded with self, skipping self; current seeded
with self, skipping self and introduced devices) have a non-empty
symmetric difference; in particular it returns `false` whenever the
desired peer identifiers equal the current non-introduced, non-self
device identifiers as sets. -/
theorem syncthingNeedsReconfigure_iff_keyset_diff
    (nodeList : List SyncthingPeer) (st : Syncthing) (cur : PeerMap)
    (hc : currentMap st.MyID st.Configuration.Devices = some cur) :
    ∃ b, syncthingNeedsReconfigure nodeList (some st) = some b ∧
      (b = true ↔
        (symmDiff (keysFinset (desiredMap st.MyID nodeList)) (keysFinset cur)).Nonempty) ∧
      (keysFinset (desiredMap st.MyID nodeList) = keysFinset cur → b = false) ∧
      (((nodeList.map (fun p => p.ID)).toFinset =
          ((st.Configuration.Devices.filter (fun d =>
            !(d.DeviceID.goString == st.MyID || d.IntroducedBy.goString != ""))).map
            (fun d => d.DeviceID.goString)).toFinset) → b = false) := by
  have hGA : GoodMap (desiredMap st.MyID nodeList) :=
    goodMap_insertNodes st.MyID nodeList (seedMap st.MyID)
      (goodMap_seedMap st.MyID)
  have hGB : GoodMap cur :=
    goodMap_insertCurrentDevices st.MyID st.Configuration.Devices
      (seedMap st.MyID) cur (goodMap_seedMap st.MyID) hc
  refine ⟨(desiredMap st.MyID nodeList).any (fun e => !(containsKey cur e.2.ID)) ||
    cur.any (fun e => !(containsKey (desiredMap st.MyID nodeList) e.2.ID)),
    by simp only [syncthingNeedsReconfigure, currentMap] at hc ⊢; rw [hc], ?_, ?_, ?_⟩
  · rw [Bool.or_eq_true, anyMissing_iff _ _ hGA, anyMissing_iff _ _ hGB]
    simp only [Finset.Nonempty, Finset.mem_symmDiff, keysFinset, List.mem_toFinset,
      exists_or]
  · intro hEq
    rw [Bool.or_eq_false_iff]
    constructor
    · rw [← Bool.not_eq_true, anyMissing_iff _ _ hGA]
      rintro ⟨k, hk, hnk⟩
      refine hnk ?_
      have := Finset.ext_iff.mp hEq k
      simp only [keysFinset, List.mem_toFinset] at this
      exact this.mp hk
    · rw [← Bool.not_eq_true, anyMissing_iff _ _ hGB]
      rintro ⟨k, hk, hnk⟩
      refine hnk ?_
      have := Finset.ext_iff.mp hEq k
      simp only [keysFinset, List.mem_toFinset] at this
      exact this.mpr hk
  · intro hIDs
    have hIDs2 : ∀ k, (k ∈ nodeList.map (fun p => p.ID)) ↔
        (k ∈ (st.Configuration.Devices.filter (fun d =>
          !(d.DeviceID.goString == st.MyID || d.IntroducedBy.goString != ""))).map
          (fun d => d.DeviceID.goString)) := by
      intro k
      have := Finset.ext_iff.mp hIDs k
      simpa only [List.mem_toFinset] using this
    have hKeysEq : keysFinset (desiredMap st.MyID nodeList) = keysFinset cur := by
      apply Finset.ext
      intro k
      simp only [keysFinset, List.mem_toFinset]
      rw [mem_mapKeys_desiredMap,
        mem_mapKeys_insertCurrentDevices st.MyID st.Configuration.Devices
          (seedMap st.MyID) cur k hc]
      have hseed : k ∈ mapKeys (seedMap st.MyID) ↔ k = st.MyID := by
        simp [seedMap, mapKeys]
      rw [hseed]
      constructor
      · rintro (hk | ⟨p, hp, h1, h2⟩)
        · exact Or.inl hk
        · have hin : k ∈ nodeList.map (fun p => p.ID) :=
            List.mem_map.mpr ⟨p, hp, h1⟩
          have := (hIDs2 k).mp hin
          rcases (mem_filteredKeys st.Configuration.Devices st.MyID k).mp this
            with ⟨d, hd, hd1, hd2, hd3⟩
          exact Or.inr ⟨d, hd, hd1, hd2, hd3⟩
      · rintro (hk | ⟨d, hd, h1, h2, h3⟩)
        · exact Or.inl hk
        · have hin : k ∈ (st.Configuration.Devices.filter (fun d =>
              !(d.DeviceID.goString == st.MyID ||
                d.IntroducedBy.goString != ""))).map
              (fun d => d.DeviceID.goString) :=
            (mem_filteredKeys st.Configuration.Devices st.MyID k).mpr
              ⟨d, hd, h1, h2, h3⟩
          have := (hIDs2 k).mpr hin
          rcases List.mem_map.mp this with ⟨p, hp, hpk⟩
          exact Or.inr ⟨p, hp, hpk, h1 ▸ h2⟩
    -- reuse the key-set-equality branch
    rw [Bool.or_eq_false_iff]
    constructor
    · rw [← Bool.not_eq_true, anyMissing_iff _ _ hGA]
      rintro ⟨k, hk, hnk⟩
      refine hnk ?_
      have := Finset.ext_iff.mp hKeysEq k
      simp only [keysFinset, List.mem_toFinset] at this
      exact this.mp hk
    · rw [← Bool.not_eq_true, anyMissing_iff _ _ hGB]
      rintro ⟨k, hk, hnk⟩
      refine hnk ?_
      have := Finset.ext_iff.mp hKeysEq k
      simp only [keysFinset, List.mem_toFinset] at this
      exact this.mpr hk

theorem syncthingNeedsReconfigure_iff_keyset_diff_witness :
    ∃ b, syncthingNeedsReconfigure [⟨"A", "addr", false⟩] (some wSt) = some b ∧
      (b = true ↔
        (symmDiff (keysFinset (desiredMap wSt.MyID [⟨"A", "addr", false⟩]))
          (keysFinset [("SELF", ⟨"SELF", "", false⟩)])).Nonempty) ∧
      (keysFinset (desiredMap wSt.MyID [⟨"A", "addr", false⟩]) =
        keysFinset [("SELF", ⟨"SELF", "", false⟩)] → b = false) ∧
      ((([⟨"A", "addr", false⟩] : List SyncthingPeer).map (fun p => p.ID)).toFinset =
        ((wSt.Configuration.Devices.filter (fun d =>
          !(d.DeviceID.goString == wSt.MyID || d.IntroducedBy.goString != ""))).map
          (fun d => d.DeviceID.goString)).toFinset → b = false) :=
  syncthingNeedsReconfigure_iff_keyset_diff [⟨"A", "addr", false⟩] wSt
    [("SELF", ⟨"SELF", "", false⟩)] (by decide)

/-! ### C5, C6: address-scheme normalization -/

/-- Declarative reading of the anchored Go regexp `^(\w+:\/\/)[^\s]+$`:
a non-empty word run, the literal "://", and a non-empty remainder free
of whitespace, together exhausting the string. -/
def SchemeURIFullMatch (s : String) : Prop :=
  ∃ w rest : List Char, s.data = w ++ ':' :: '/' :: '/' :: rest ∧ w ≠ [] ∧
    (∀ c ∈ w, isWordChar c = true) ∧ rest ≠ [] ∧
    (∀ c ∈ rest, isSpaceChar c = false)

/-- The pattern named by the claim, `^\w+://`: a prefix match with no
constraint on the remainder. -/
def SchemePrefixPat (s : String) : Prop :=
  ∃ w rest : List Char, s.data = w ++ ':' :: '/' :: '/' :: rest ∧ w ≠ [] ∧
    (∀ c ∈ w, isWordChar c = true)

theorem takeWhile_sandwich (p : Char → Bool) (w : List Char) (x : Char)
    (t : List Char) (hw : ∀ c ∈ w, p c = true) (hx : p x = false) :
    (w ++ x :: t).takeWhile p = w ∧ (w ++ x :: t).dropWhile p = x :: t := by
  induction w with
  | nil =>
    simp [List.takeWhile_cons, List.dropWhile_cons, hx]
  | cons a w ih =>
    have ha : p a = true := hw a (List.mem_cons_self a w)
    have hih := ih (fun c hc => hw c (List.mem_cons_of_mem a hc))
    simp [List.takeWhile_cons, List.dropWhile_cons, ha, hih.1, hih.2]

theorem uriPatternMatch_iff (s : String) :
    uriPatternMatch s = true ↔ SchemeURIFullMatch s := by
  constructor
  · intro h
    unfold uriPatternMatch at h
    split at h
    · next rest heq =>
      simp only [Bool.and_eq_true, Bool.not_eq_true', List.isEmpty_eq_false,
        List.all_eq_true, Bool.not_eq_true'] at h
      refine ⟨s.data.takeWhile isWordChar, rest, ?_, h.1.1, ?_, h.1.2, h.2⟩
      · have hsplit : s.data =
            s.data.takeWhile isWordChar ++ s.data.dropWhile isWordChar :=
          (List.takeWhile_append_dropWhile isWordChar s.data).symm
        rw [heq] at hsplit
        exact hsplit
      · intro c hc
        exact List.mem_takeWhile_imp hc
    · next =>
      cases h
  · rintro ⟨w, rest, hs, hw, hall, hrest, hns⟩
    have hx : isWordChar ':' = false := by decide
    obtain ⟨ht, hd⟩ :=
      takeWhile_sandwich isWordChar w ':' ('/' :: '/' :: rest) hall hx
    unfold uriPatternMatch
    rw [hs, ht, hd]
    simp only [Bool.and_eq_true, Bool.not_eq_true', List.isEmpty_eq_false,
      List.all_eq_true, Bool.not_eq_true']
    exact ⟨⟨hw, hrest⟩, hns⟩

/-- C5 fails as stated: "tcp://" matches the claim's prefix pattern
`^\w+://` yet `asTCPAddress` does not return it unchanged — the compiled
regexp additionally demands a non-empty, whitespace-free remainder, so
"tcp://" gets another "tcp://" prepended. -/
theorem asTCPAddress_scheme_cex :
    SchemePrefixPat "tcp://" ∧ asTCPAddress "tcp://" ≠ "tcp://" :=
  ⟨⟨['t', 'c', 'p'], [], by decide, by decide, by decide⟩, by decide⟩

/-- C5 amended: `asTCPAddress` returns its input unchanged exactly when
the input fully matches `^\w+:\/\/[^\s]+$` (a URI scheme prefix followed
by a non-empty, whitespace-free remainder); otherwise it returns the
input with "tcp://" prepended. -/
theorem asTCPAddress_full_pattern_spec (s : String) :
    (SchemeURIFullMatch s → asTCPAddress s = s) ∧
    (¬ SchemeURIFullMatch s → asTCPAddress s = "tcp://" ++ s) := by
  constructor
  · intro h
    simp [asTCPAddress, (uriPatternMatch_iff s).mpr h]
  · intro h
    have hm : uriPatternMatch s = false := by
      cases hb : uriPatternMatch s with
      | false => rfl
      | true => exact absurd ((uriPatternMatch_iff s).mp hb) h
    simp [asTCPAddress, hm]

theorem asTCPAddress_full_pattern_spec_witness :
    (asTCPAddress "quic://1.2.3.4:22000" = "quic://1.2.3.4:22000") ∧
    (asTCPAddress "1.2.3.4:22000" = "tcp://" ++ "1.2.3.4:22000") := by
  constructor
  · exact (asTCPAddress_full_pattern_spec "quic://1.2.3.4:22000").1
      ⟨['q', 'u', 'i', 'c'], ['1', '.', '2', '.', '3', '.', '4', ':', '2', '2',
        '0', '0', '0'], by decide, by decide, by decide, by decide, by decide⟩
  · refine (asTCPAddress_full_pattern_spec "1.2.3.4:22000").2 ?_
    intro hm
    have : uriPatternMatch "1.2.3.4:22000" = true :=
      (uriPatternMatch_iff "1.2.3.4:22000").mpr hm
    exact absurd this (by decide)

/-- C6 fails as stated: `asTCPAddress` is not idempotent on the empty
string, which it maps to "tcp://" and then to "tcp://tcp://". -/
theorem asTCPAddress_idempotent_cex :
    asTCPAddress (asTCPAddress "") ≠ asTCPAddress "" := by
  decide

/-- C6 amended: `asTCPAddress` is idempotent on every input that is
non-empty and contains no whitespace character; on other inputs a second
application prepends a second "tcp://". -/
theorem asTCPAddress_idempotent_on_clean (s : String) (h1 : s.data ≠ [])
    (h2 : ∀ c ∈ s.data, isSpaceChar c = false) :
    asTCPAddress (asTCPAddress s) = asTCPAddress s := by
  by_cases hm : uriPatternMatch s = true
  · simp [asTCPAddress, hm]
  · have hm2 : uriPatternMatch s = false := by simpa using hm
    have hpre : uriPatternMatch ("tcp://" ++ s) = true := by
      apply (uriPatternMatch_iff ("tcp://" ++ s)).mpr
      refine ⟨['t', 'c', 'p'], s.data, ?_, by decide, by decide, h1, h2⟩
      simp [String.data_append]
    simp [asTCPAddress, hm2, hpre]

theorem asTCPAddress_idempotent_on_clean_witness :
    asTCPAddress (asTCPAddress "1.2.3.4:22000") = asTCPAddress "1.2.3.4:22000" :=
  asTCPAddress_idempotent_on_clean "1.2.3.4:22000" (by decide) (by decide)

end VolSync
